import Mathlib

/-!
Shallow embedding of `src/EventFiltering/Zorro.cxx` (the `Zorro` class:
`initCCDB`, `fetch`, `isSelected`, and the file-local helper `findBin`).

Modelling conventions:
* bunch-crossing identifiers and record endpoints (`uint64_t` / packed
  `InteractionRecord` values) are modelled as `Nat`; the query window
  `[bcGlobalId - tolerance, bcGlobalId + tolerance]` is computed in `Int`
  (the `InteractionRecord` arithmetic of the source on non-underflowing
  inputs);
* the 128-bit `std::bitset` is a `Nat` below `2^128` (two 64-bit words);
* the CCDB metadata store is an external collaborator: `initCCDB` receives
  the payloads it would fetch (the `ZorroHelper` table and the bin labels of
  the `SelectionCounters` histogram) as arguments;
* the two histograms that receive `Fill` calls (`mAnalysedTriggers`,
  `mAnalysedTriggersOfInterest`) are modelled as an attached/not-attached
  flag plus the list of fill arguments emitted so far;
* `std::sort` with the strict comparator on `min(bcAOD, bcEvSel)` is
  modelled by insertion sort with the corresponding non-strict relation;
  the claims under study depend only on the sortedness of the result, which
  is what `std::sort` guarantees (tie order is unspecified in C++).
-/

namespace Zorro

/-- One entry of the `ZorroHelpers` CCDB object: two raw interval endpoints
and the two 64-bit words of the selection mask. -/
structure ZorroHelper where
  bcAOD : Nat
  bcEvSel : Nat
  selMask0 : Nat
  selMask1 : Nat
deriving DecidableEq

instance : Inhabited ZorroHelper := ⟨⟨0, 0, 0, 0⟩⟩

/-- Lower endpoint of a helper's interval: `std::min(bcAOD, bcEvSel)`. -/
def hmin (h : ZorroHelper) : Nat := min h.bcAOD h.bcEvSel

/-- Upper endpoint of a helper's interval: `std::max(bcAOD, bcEvSel)`. -/
def hmax (h : ZorroHelper) : Nat := max h.bcAOD h.bcEvSel

/-- Comparator used to sort the helper table (non-strict companion of the
`std::sort` comparator `min(a) < min(b)`). -/
def minLE (a b : ZorroHelper) : Prop := hmin a ≤ hmin b

instance : DecidableRel minLE := fun a b => inferInstanceAs (Decidable (hmin a ≤ hmin b))

instance : IsTotal ZorroHelper minLE := ⟨fun a b => Nat.le_total (hmin a) (hmin b)⟩

instance : IsTrans ZorroHelper minLE := ⟨fun _ _ _ => Nat.le_trans⟩

/-- The file-local helper `findBin`: 1-based index of the first histogram bin
whose label matches exactly, `-1` if none does (iteration with running bin
number `i`). -/
def findBinAux (label : String) : List String → Int → Int
  | [], _ => -1
  | l :: rest, i => if label == l then i else findBinAux label rest (i + 1)

/-- `findBin(hist, label)`: scan bins `1..N` for an exact label match. -/
def findBin (labels : List String) (label : String) : Int :=
  findBinAux label labels 1

/-- Trim leading and trailing space characters from a token, as the two
`erase`/`find_first_not_of(" ")`/`find_last_not_of(" ")` calls do. -/
def trimSpaces (t : List Char) : List Char :=
  ((t.dropWhile (· == ' ')).reverse.dropWhile (· == ' ')).reverse

/-- The comma-splitting loop of `initCCDB`: repeatedly take the substring up
to the first `','` (or the whole rest) and erase through it.  Each step
drops at least one character, so `fuel = length` suffices. -/
def splitCommaAux : Nat → List Char → List (List Char)
  | _, [] => []
  | 0, _ => []
  | fuel + 1, s =>
    let pos := s.findIdx (· == ',')
    s.take pos :: splitCommaAux fuel (s.drop (pos + 1))

/-- Tokenized, space-trimmed triggers-of-interest list built from the
comma-separated configuration string. -/
def parseTOIs (tois : String) : List String :=
  (splitCommaAux tois.data.length tois.data).map (fun t => String.mk (trimSpaces t))

/-- `std::vector::resize(n, 0)`: keep the first `n` entries, pad with zeros. -/
def resizeCounts (old : List Nat) (n : Nat) : List Nat :=
  old.take n ++ List.replicate (n - old.length) 0

/-- The mutable state of a `Zorro` object (fields of the class that the
embedded member functions read or write). -/
structure ZorroState where
  mRunNumber : Int
  mBCtolerance : Nat
  mZorroHelpers : List ZorroHelper
  mSelectionLabels : List String
  mLastBCglobalId : Nat
  mLastSelectedIdx : Nat
  mLastResult : Nat
  mTOIs : List String
  mTOIidx : List Int
  mTOIcounts : List Nat
  hasAnalysedTriggers : Bool
  analysedTriggersFills : List Nat
  hasAnalysedTOI : Bool
  analysedTOIFills : List Nat
deriving DecidableEq

/-- Modelled from the spec: the default-constructed `Zorro` object before any
run is loaded (the in-class initializers live in `Zorro.h`, which is not part
of `src/`); all tables empty, cursor at zero, no run loaded yet (sentinel run
number `-1`), no histograms attached. -/
def emptyZorro : ZorroState where
  mRunNumber := -1
  mBCtolerance := 0
  mZorroHelpers := []
  mSelectionLabels := []
  mLastBCglobalId := 0
  mLastSelectedIdx := 0
  mLastResult := 0
  mTOIs := []
  mTOIidx := []
  mTOIcounts := []
  hasAnalysedTriggers := false
  analysedTriggersFills := []
  hasAnalysedTOI := false
  analysedTOIFills := []

/-- `Zorro::initCCDB`.  The CCDB collaborator is abstracted away: the helper
table and the `SelectionCounters` bin labels it would return for
`(runNumber, timestamp)` are passed directly.  Returns `mTOIidx` and the new
state.  Mirrors the source line by line: early return on the same run number;
sort helpers by `min(bcAOD, bcEvSel)`; reset `mLastBCglobalId` and
`mLastSelectedIdx`; clear and rebuild `mTOIs`/`mTOIidx` from the token loop
(`findBin(mSelections, token) - 2` per token); `mTOIcounts.resize(n, 0)`. -/
def initCCDB (s : ZorroState) (runNumber : Int) (helpersRaw : List ZorroHelper)
    (selectionLabels : List String) (tois : String) (bcRange : Nat) :
    List Int × ZorroState :=
  if s.mRunNumber = runNumber then (s.mTOIidx, s)
  else
    let sortedHelpers := List.insertionSort minLE helpersRaw
    let toiList := parseTOIs tois
    let toiIdx := toiList.map (fun t => findBin selectionLabels t - 2)
    let s' : ZorroState :=
      { s with
        mRunNumber := runNumber
        mBCtolerance := bcRange
        mZorroHelpers := sortedHelpers
        mSelectionLabels := selectionLabels
        mLastBCglobalId := 0
        mLastSelectedIdx := 0
        mTOIs := toiList
        mTOIidx := toiIdx
        mTOIcounts := resizeCounts s.mTOIcounts toiList.length }
    (toiIdx, s')

/-- `IRFrame::isOutside` specialised to our interval model: the record
`[hmin, hmax]` is disjoint from the query window `[lo, hi]`. -/
def isOutside (h : ZorroHelper) (lo hi : Int) : Bool :=
  decide ((hmax h : Int) < lo) || decide ((hmin h : Int) > hi)

/-- The scan loop of `Zorro::fetch`: walk the table from index `i` with
cursor `cur` (`mLastSelectedIdx`).  A record that overlaps the window is the
match (cursor moves to it); a record entirely before the window advances the
cursor and the scan; a record entirely after the window stops the scan.
Structured recursion on `fuel`; callers pass `fuel = length - i`, which
bounds the number of remaining iterations. -/
def scanFrom (H : List ZorroHelper) (lo hi : Int) : Nat → Nat → Nat → Option Nat × Nat
  | 0, _, cur => (none, cur)
  | fuel + 1, i, cur =>
    match H[i]? with
    | none => (none, cur)
    | some r =>
      if !(isOutside r lo hi) then (some i, i)
      else if (hmax r : Int) < lo then scanFrom H lo hi fuel (i + 1) i
      else if (hmin r : Int) > hi then (none, cur)
      else scanFrom H lo hi fuel (i + 1) cur

/-- The scan of `fetch` starting at index `i` with cursor `cur`. -/
def scan (H : List ZorroHelper) (lo hi : Int) (i cur : Nat) : Option Nat × Nat :=
  scanFrom H lo hi (H.length - i) i cur

/-- The 128-bit mask decoded from the two 64-bit words of a helper, as the
double bit loop of `fetch` assembles it (`selMask[iMask] & (1ull << iTOI)`
sets bit `iMask * 64 + iTOI`). -/
def decodeMask (h : ZorroHelper) : Nat :=
  h.selMask0 % 2 ^ 64 + 2 ^ 64 * (h.selMask1 % 2 ^ 64)

/-- The set bit positions of a mask in ascending order (the order in which
the bit loop of `fetch` visits them). -/
def setBits (m : Nat) : List Nat :=
  (List.range 128).filter (fun b => m.testBit b)

/-- Lower edge of the query window `bcFrame`: `bcGlobalId - tolerance`. -/
def fetchLo (bcGlobalId tolerance : Nat) : Int := (bcGlobalId : Int) - (tolerance : Int)

/-- Upper edge of the query window `bcFrame`: `bcGlobalId + tolerance`. -/
def fetchHi (bcGlobalId tolerance : Nat) : Int := (bcGlobalId : Int) + (tolerance : Int)

/-- The index the scan of `fetch` starts from: `mLastSelectedIdx`, reset to 0
first when the query went backward (`bcGlobalId < mLastBCglobalId`). -/
def startIdx (s : ZorroState) (bcGlobalId : Nat) : Nat :=
  if bcGlobalId < s.mLastBCglobalId then 0 else s.mLastSelectedIdx

/-- `Zorro::fetch`.  Captures `mLastSelectedIdx` on entry, resets the cursor
on a backward query (`bcGlobalId < mLastBCglobalId`), updates
`mLastBCglobalId` unconditionally, scans from the cursor, and on a match
decodes the mask and emits one `mAnalysedTriggers->Fill(bit)` per set bit
when the matched index differs from the entry cursor. -/
def fetch (s : ZorroState) (bcGlobalId tolerance : Nat) : Nat × ZorroState :=
  match scan s.mZorroHelpers (fetchLo bcGlobalId tolerance) (fetchHi bcGlobalId tolerance)
      (startIdx s bcGlobalId) (startIdx s bcGlobalId) with
  | (some i, _) =>
    let mask := decodeMask (s.mZorroHelpers.getD i default)
    let fills := if s.hasAnalysedTriggers ∧ i ≠ s.mLastSelectedIdx then setBits mask else []
    (mask,
      { s with
        mLastResult := mask
        mLastBCglobalId := bcGlobalId
        mLastSelectedIdx := i
        analysedTriggersFills := s.analysedTriggersFills ++ fills })
  | (none, cur) =>
    (0,
      { s with
        mLastResult := 0
        mLastBCglobalId := bcGlobalId
        mLastSelectedIdx := cur })

/-- `mTOIcounts[i] += (lastSelectedIdx != mLastSelectedIdx)`. -/
def bumpCount (counts : List Nat) (i : Nat) (changed : Bool) : List Nat :=
  counts.set i (counts.getD i 0 + (if changed then 1 else 0))

/-- The loop of `Zorro::isSelected` over `mTOIidx`: skip negative entries,
and at the first entry whose bit is set in the fetched mask bump its count
(by the boolean `changed`), emit the `mAnalysedTriggersOfInterest` fill when
`changed`, and return `true`; return `false` if no entry fires.  `pos` is the
running loop index `i`. -/
def isSelectedLoop (mask : Nat) (changed hasTOIH : Bool) :
    List Int → Nat → List Nat → List Nat → Bool × List Nat × List Nat
  | [], _, counts, fills => (false, counts, fills)
  | idx :: rest, pos, counts, fills =>
    if idx < 0 then isSelectedLoop mask changed hasTOIH rest (pos + 1) counts fills
    else if mask.testBit idx.toNat then
      (true, bumpCount counts pos changed,
        if hasTOIH ∧ changed then fills ++ [pos] else fills)
    else isSelectedLoop mask changed hasTOIH rest (pos + 1) counts fills

/-- `Zorro::isSelected`: capture the cursor, call `fetch`, then run the
trigger-of-interest loop with `changed = (lastSelectedIdx != mLastSelectedIdx)`. -/
def isSelected (s : ZorroState) (bcGlobalId tolerance : Nat) : Bool × ZorroState :=
  let lastSelectedIdx := s.mLastSelectedIdx
  let fr := fetch s bcGlobalId tolerance
  let s1 := fr.2
  let changed := lastSelectedIdx != s1.mLastSelectedIdx
  let res := isSelectedLoop fr.1 changed s1.hasAnalysedTOI s1.mTOIidx 0 s1.mTOIcounts
    s1.analysedTOIFills
  (res.1, { s1 with mTOIcounts := res.2.1, analysedTOIFills := res.2.2 })

/-! ### Basic properties of the scan loop -/

/-- A record that the scan may permanently skip: it lies entirely before the
query window. -/
def skippable (H : List ZorroHelper) (lo : Int) (p : Nat) : Prop :=
  ∃ r, H[p]? = some r ∧ (hmax r : Int) < lo

theorem lt_length_of_getElem_some {H : List ZorroHelper} {i : Nat} {r : ZorroHelper}
    (h : H[i]? = some r) : i < H.length := by
  by_contra hc
  rw [List.getElem?_eq_none (Nat.le_of_not_lt hc)] at h
  exact Option.noConfusion h

theorem scan_oob {H : List ZorroHelper} {lo hi : Int} {i cur : Nat} (h : H.length ≤ i) :
    scan H lo hi i cur = (none, cur) := by
  unfold scan
  rw [Nat.sub_eq_zero_of_le h]
  rfl

theorem scan_match {H : List ZorroHelper} {lo hi : Int} {i cur : Nat} {r : ZorroHelper}
    (h : H[i]? = some r) (hm : isOutside r lo hi = false) :
    scan H lo hi i cur = (some i, i) := by
  have hlt : i < H.length := lt_length_of_getElem_some h
  unfold scan
  rw [show H.length - i = (H.length - (i + 1)) + 1 by omega]
  unfold scanFrom
  rw [h]
  simp [hm]

theorem scan_skip {H : List ZorroHelper} {lo hi : Int} {i cur : Nat} {r : ZorroHelper}
    (h : H[i]? = some r) (hs : (hmax r : Int) < lo) :
    scan H lo hi i cur = scan H lo hi (i + 1) i := by
  have hlt : i < H.length := lt_length_of_getElem_some h
  have ho : isOutside r lo hi = true := by simp [isOutside, hs]
  show scanFrom H lo hi (H.length - i) i cur = scanFrom H lo hi (H.length - (i + 1)) (i + 1) i
  rw [show H.length - i = (H.length - (i + 1)) + 1 by omega]
  simp only [scanFrom]
  rw [h]
  simp [ho, hs]

theorem scan_break {H : List ZorroHelper} {lo hi : Int} {i cur : Nat} {r : ZorroHelper}
    (h : H[i]? = some r) (ho : isOutside r lo hi = true) (hs : ¬ (hmax r : Int) < lo) :
    scan H lo hi i cur = (none, cur) := by
  have hlt : i < H.length := lt_length_of_getElem_some h
  have hb : (hmin r : Int) > hi := by
    simp only [isOutside, Bool.or_eq_true, decide_eq_true_eq] at ho
    exact ho.resolve_left hs
  unfold scan
  rw [show H.length - i = (H.length - (i + 1)) + 1 by omega]
  unfold scanFrom
  rw [h]
  simp [ho, hs, hb]

theorem scanFrom_fst_cur (H : List ZorroHelper) (lo hi : Int) :
    ∀ (f i c c' : Nat), (scanFrom H lo hi f i c).1 = (scanFrom H lo hi f i c').1 := by
  intro f
  induction f with
  | zero => intro i c c'; rfl
  | succ n ih =>
    intro i c c'
    unfold scanFrom
    cases h : H[i]? with
    | none => rfl
    | some r =>
      cases hb : isOutside r lo hi with
      | false => simp [hb]
      | true =>
        by_cases h2 : (hmax r : Int) < lo
        · simp [hb, h2]
        · by_cases h3 : (hmin r : Int) > hi
          · simp [hb, h2, h3]
          · simp only [hb, h2, h3, Bool.not_true, Bool.false_eq_true, if_false]
            exact ih (i + 1) c c'

theorem scan_fst_cur (H : List ZorroHelper) (lo hi : Int) (i c c' : Nat) :
    (scan H lo hi i c).1 = (scan H lo hi i c').1 :=
  scanFrom_fst_cur H lo hi _ i c c'

theorem scan_char_some_aux (H : List ZorroHelper) (lo hi : Int) :
    ∀ (n i cur j c : Nat), H.length - i = n →
      scan H lo hi i cur = (some j, c) →
      c = j ∧ i ≤ j ∧ (∃ r, H[j]? = some r ∧ isOutside r lo hi = false) ∧
        ∀ p, i ≤ p → p < j → skippable H lo p := by
  intro n
  induction n with
  | zero =>
    intro i cur j c hn hsc
    rw [scan_oob (by omega)] at hsc
    exact absurd hsc (by simp)
  | succ n ih =>
    intro i cur j c hn hsc
    have hlt : i < H.length := by omega
    have hr : H[i]? = some (H[i]) := List.getElem?_eq_getElem hlt
    cases hb : isOutside (H[i]) lo hi with
    | false =>
      rw [scan_match hr hb] at hsc
      obtain rfl : i = j := Option.some.inj (congrArg Prod.fst hsc)
      exact ⟨(congrArg Prod.snd hsc).symm, Nat.le_refl i, ⟨H[i], hr, hb⟩,
        fun p hip hpi => absurd hip (by omega)⟩
    | true =>
      by_cases h2 : (hmax (H[i]) : Int) < lo
      · rw [scan_skip hr h2] at hsc
        obtain ⟨hc, hij, hrec, hskip⟩ := ih (i + 1) i j c (by omega) hsc
        refine ⟨hc, by omega, hrec, fun p hip hpj => ?_⟩
        rcases Nat.eq_or_lt_of_le hip with heq | hlt'
        · rw [← heq]
          exact ⟨H[i], hr, h2⟩
        · exact hskip p hlt' hpj
      · rw [scan_break hr hb h2] at hsc
        exact absurd hsc (by simp)

theorem scan_char_none_aux (H : List ZorroHelper) (lo hi : Int) :
    ∀ (n i cur c : Nat), H.length - i = n →
      scan H lo hi i cur = (none, c) →
      c = cur ∨ (i ≤ c ∧ ∀ p, i ≤ p → p ≤ c → skippable H lo p) := by
  intro n
  induction n with
  | zero =>
    intro i cur c hn hsc
    rw [scan_oob (by omega)] at hsc
    exact Or.inl (congrArg Prod.snd hsc).symm
  | succ n ih =>
    intro i cur c hn hsc
    have hlt : i < H.length := by omega
    have hr : H[i]? = some (H[i]) := List.getElem?_eq_getElem hlt
    cases hb : isOutside (H[i]) lo hi with
    | false =>
      rw [scan_match hr hb] at hsc
      exact absurd hsc (by simp)
    | true =>
      by_cases h2 : (hmax (H[i]) : Int) < lo
      · rw [scan_skip hr h2] at hsc
        rcases ih (i + 1) i c (by omega) hsc with hc | ⟨hic, hskip⟩
        · refine Or.inr ⟨by omega, fun p hip hpc => ?_⟩
          have hpi : p = i := by omega
          rw [hpi]
          exact ⟨H[i], hr, h2⟩
        · refine Or.inr ⟨by omega, fun p hip hpc => ?_⟩
          rcases Nat.eq_or_lt_of_le hip with heq | hlt'
          · rw [← heq]
            exact ⟨H[i], hr, h2⟩
          · exact hskip p hlt' hpc
      · rw [scan_break hr hb h2] at hsc
        exact Or.inl (congrArg Prod.snd hsc).symm

theorem scan_char_some {H : List ZorroHelper} {lo hi : Int} {i cur j c : Nat}
    (hsc : scan H lo hi i cur = (some j, c)) :
    c = j ∧ i ≤ j ∧ (∃ r, H[j]? = some r ∧ isOutside r lo hi = false) ∧
      ∀ p, i ≤ p → p < j → skippable H lo p :=
  scan_char_some_aux H lo hi (H.length - i) i cur j c rfl hsc

theorem scan_char_none {H : List ZorroHelper} {lo hi : Int} {i cur c : Nat}
    (hsc : scan H lo hi i cur = (none, c)) :
    c = cur ∨ (i ≤ c ∧ ∀ p, i ≤ p → p ≤ c → skippable H lo p) :=
  scan_char_none_aux H lo hi (H.length - i) i cur c rfl hsc

theorem scan_skip_run (H : List ZorroHelper) (lo hi : Int) :
    ∀ (j i cur : Nat), i < j → (∀ p, i ≤ p → p < j → skippable H lo p) →
      scan H lo hi i cur = scan H lo hi j (j - 1) := by
  intro j
  induction j with
  | zero => intro i cur h; exact absurd h (Nat.not_lt_zero i)
  | succ m ih =>
    intro i cur hij hskip
    rcases Nat.eq_or_lt_of_le (Nat.le_of_lt_succ hij) with rfl | hlt
    · obtain ⟨r, hr, hs⟩ := hskip i (Nat.le_refl i) (Nat.lt_succ_self i)
      rw [scan_skip hr hs]
      simp
    · obtain ⟨r, hr, hs⟩ := hskip m (by omega) (Nat.lt_succ_self m)
      calc scan H lo hi i cur
          = scan H lo hi m (m - 1) := ih i cur hlt (fun p hip hpm => hskip p hip (by omega))
        _ = scan H lo hi (m + 1) m := scan_skip hr hs
        _ = scan H lo hi (m + 1) (m + 1 - 1) := by simp

/-- Restarting the scan from the cursor it produced reproduces its result:
the heart of the idempotence of repeated queries. -/
theorem scan_restart {H : List ZorroHelper} {lo hi : Int} {i : Nat}
    {res : Option Nat × Nat} (h : scan H lo hi i i = res) :
    scan H lo hi res.2 res.2 = res := by
  rcases res with ⟨o, c⟩
  cases o with
  | some j =>
    obtain ⟨rfl, _, ⟨r, hr, hb⟩, _⟩ := scan_char_some h
    exact scan_match hr hb
  | none =>
    rcases scan_char_none h with rfl | ⟨hic, hskip⟩
    · exact h
    · obtain ⟨r, hr, hs⟩ := hskip c hic (Nat.le_refl c)
      have h1 : scan H lo hi i i = scan H lo hi (c + 1) c := by
        have := scan_skip_run H lo hi (c + 1) i i (by omega)
          (fun p hip hpc => hskip p hip (by omega))
        simpa using this
      have h2 : scan H lo hi c c = scan H lo hi (c + 1) c := scan_skip hr hs
      rw [h2, ← h1, h]

/-- If every record at or after the start index is outside the window, the
scan finds no match. -/
theorem scan_none_of_all_outside (H : List ZorroHelper) (lo hi : Int) :
    ∀ (n i cur : Nat), H.length - i = n →
      (∀ j r, i ≤ j → H[j]? = some r → isOutside r lo hi = true) →
      (scan H lo hi i cur).1 = none := by
  intro n
  induction n with
  | zero =>
    intro i cur hn _
    rw [scan_oob (by omega)]
  | succ n ih =>
    intro i cur hn hout
    have hlt : i < H.length := by omega
    have hr : H[i]? = some (H[i]) := List.getElem?_eq_getElem hlt
    have hb : isOutside (H[i]) lo hi = true := hout i (H[i]) (Nat.le_refl i) hr
    by_cases h2 : (hmax (H[i]) : Int) < lo
    · rw [scan_skip hr h2]
      exact ih (i + 1) i (by omega) (fun j r hij => hout j r (by omega))
    · rw [scan_break hr hb h2]

/-! ### Properties of fetch -/

/-- The mask `fetch` produces for a given scan outcome. -/
def maskOf (H : List ZorroHelper) (o : Option Nat) : Nat :=
  match o with
  | some i => decodeMask (H.getD i default)
  | none => 0

theorem fetch_of_scan_some {s : ZorroState} {bc tol : Nat} {i c : Nat}
    (h : scan s.mZorroHelpers (fetchLo bc tol) (fetchHi bc tol)
      (startIdx s bc) (startIdx s bc) = (some i, c)) :
    fetch s bc tol =
      (decodeMask (s.mZorroHelpers.getD i default),
        { s with
          mLastResult := decodeMask (s.mZorroHelpers.getD i default)
          mLastBCglobalId := bc
          mLastSelectedIdx := i
          analysedTriggersFills := s.analysedTriggersFills ++
            (if s.hasAnalysedTriggers ∧ i ≠ s.mLastSelectedIdx
              then setBits (decodeMask (s.mZorroHelpers.getD i default)) else []) }) := by
  unfold fetch
  rw [h]

theorem fetch_of_scan_none {s : ZorroState} {bc tol : Nat} {c : Nat}
    (h : scan s.mZorroHelpers (fetchLo bc tol) (fetchHi bc tol)
      (startIdx s bc) (startIdx s bc) = (none, c)) :
    fetch s bc tol =
      (0, { s with mLastResult := 0, mLastBCglobalId := bc, mLastSelectedIdx := c }) := by
  unfold fetch
  rw [h]

theorem fetch_mask (s : ZorroState) (bc tol : Nat) :
    (fetch s bc tol).1 =
      maskOf s.mZorroHelpers
        (scan s.mZorroHelpers (fetchLo bc tol) (fetchHi bc tol)
          (startIdx s bc) (startIdx s bc)).1 := by
  rcases hres : scan s.mZorroHelpers (fetchLo bc tol) (fetchHi bc tol)
    (startIdx s bc) (startIdx s bc) with ⟨o, c⟩
  cases o with
  | some i => rw [fetch_of_scan_some hres]; rfl
  | none => rw [fetch_of_scan_none hres]; rfl

theorem fetch_cursor (s : ZorroState) (bc tol : Nat) :
    (fetch s bc tol).2.mLastSelectedIdx =
      (scan s.mZorroHelpers (fetchLo bc tol) (fetchHi bc tol)
        (startIdx s bc) (startIdx s bc)).2 := by
  rcases hres : scan s.mZorroHelpers (fetchLo bc tol) (fetchHi bc tol)
    (startIdx s bc) (startIdx s bc) with ⟨o, c⟩
  cases o with
  | some i =>
    obtain ⟨rfl, -⟩ := scan_char_some hres
    rw [fetch_of_scan_some hres]
  | none => rw [fetch_of_scan_none hres]

theorem fetch_frame (s : ZorroState) (bc tol : Nat) :
    (fetch s bc tol).2.mZorroHelpers = s.mZorroHelpers ∧
    (fetch s bc tol).2.mTOIidx = s.mTOIidx ∧
    (fetch s bc tol).2.mTOIcounts = s.mTOIcounts ∧
    (fetch s bc tol).2.hasAnalysedTOI = s.hasAnalysedTOI ∧
    (fetch s bc tol).2.analysedTOIFills = s.analysedTOIFills ∧
    (fetch s bc tol).2.mLastBCglobalId = bc := by
  rcases hres : scan s.mZorroHelpers (fetchLo bc tol) (fetchHi bc tol)
    (startIdx s bc) (startIdx s bc) with ⟨o, c⟩
  cases o with
  | some i => rw [fetch_of_scan_some hres]; exact ⟨rfl, rfl, rfl, rfl, rfl, rfl⟩
  | none => rw [fetch_of_scan_none hres]; exact ⟨rfl, rfl, rfl, rfl, rfl, rfl⟩

/-- A state that agrees with `s` on the helper table, whose last query key is
`bc` and whose cursor is where `fetch s bc tol` left it, re-fetches the same
mask and does not move its cursor.  This is the engine behind the
idempotence of a repeated query. -/
theorem fetch_stable (s u : ZorroState) (bc tol : Nat)
    (hH : u.mZorroHelpers = s.mZorroHelpers)
    (hB : u.mLastBCglobalId = bc)
    (hC : u.mLastSelectedIdx = (fetch s bc tol).2.mLastSelectedIdx) :
    (fetch u bc tol).1 = (fetch s bc tol).1 ∧
    (fetch u bc tol).2.mLastSelectedIdx = u.mLastSelectedIdx := by
  rcases hres : scan s.mZorroHelpers (fetchLo bc tol) (fetchHi bc tol)
    (startIdx s bc) (startIdx s bc) with ⟨o, c⟩
  have hrestart : scan s.mZorroHelpers (fetchLo bc tol) (fetchHi bc tol) c c = (o, c) :=
    scan_restart hres
  have hstart : startIdx u bc = c := by
    rw [startIdx, if_neg (by omega), hC, fetch_cursor, hres]
  have hscanu : scan u.mZorroHelpers (fetchLo bc tol) (fetchHi bc tol)
      (startIdx u bc) (startIdx u bc) = (o, c) := by
    rw [hH, hstart]
    exact hrestart
  constructor
  · rw [fetch_mask u, fetch_mask s, hscanu, hres, hH]
  · rw [fetch_cursor u, hscanu, hC, fetch_cursor s, hres]

/-! ### Properties of the isSelected loop -/

theorem set_getD_self : ∀ (l : List Nat) (i : Nat), l.set i (l.getD i 0) = l := by
  intro l
  induction l with
  | nil => intro i; rfl
  | cons a l ih =>
    intro i
    cases i with
    | zero => rfl
    | succ n => simpa using ih n

theorem bumpCount_false (counts : List Nat) (i : Nat) :
    bumpCount counts i false = counts := by
  simpa [bumpCount] using set_getD_self counts i

theorem isSelectedLoop_counts_false (mask : Nat) (hT : Bool) :
    ∀ (idxs : List Int) (pos : Nat) (counts fills : List Nat),
      (isSelectedLoop mask false hT idxs pos counts fills).2.1 = counts := by
  intro idxs
  induction idxs with
  | nil => intro pos counts fills; rfl
  | cons idx rest ih =>
    intro pos counts fills
    by_cases hneg : idx < 0
    · rw [isSelectedLoop, if_pos hneg]
      exact ih (pos + 1) counts fills
    · by_cases htb : mask.testBit idx.toNat
      · rw [isSelectedLoop, if_neg hneg, if_pos htb]
        exact bumpCount_false counts pos
      · rw [isSelectedLoop, if_neg hneg, if_neg htb]
        exact ih (pos + 1) counts fills

theorem isSelectedLoop_fst_of_zero (ch hT : Bool) :
    ∀ (idxs : List Int) (pos : Nat) (counts fills : List Nat),
      (isSelectedLoop 0 ch hT idxs pos counts fills).1 = false := by
  intro idxs
  induction idxs with
  | nil => intro pos counts fills; rfl
  | cons idx rest ih =>
    intro pos counts fills
    by_cases hneg : idx < 0
    · rw [isSelectedLoop, if_pos hneg]
      exact ih (pos + 1) counts fills
    · rw [isSelectedLoop, if_neg hneg, if_neg (by simp [Nat.zero_testBit])]
      exact ih (pos + 1) counts fills

theorem isSelectedLoop_true_iff (mask : Nat) (ch hT : Bool) :
    ∀ (idxs : List Int) (pos : Nat) (counts fills : List Nat),
      ((isSelectedLoop mask ch hT idxs pos counts fills).1 = true ↔
        ∃ idx ∈ idxs, 0 ≤ idx ∧ mask.testBit idx.toNat) := by
  intro idxs
  induction idxs with
  | nil => intro pos counts fills; simp [isSelectedLoop]
  | cons idx rest ih =>
    intro pos counts fills
    by_cases hneg : idx < 0
    · rw [isSelectedLoop, if_pos hneg, ih (pos + 1) counts fills]
      constructor
      · rintro ⟨x, hx, h0, htb⟩
        exact ⟨x, List.mem_cons_of_mem idx hx, h0, htb⟩
      · rintro ⟨x, hx, h0, htb⟩
        rcases List.mem_cons.mp hx with rfl | hx'
        · exact absurd hneg (Int.not_lt.mpr h0)
        · exact ⟨x, hx', h0, htb⟩
    · by_cases htb : mask.testBit idx.toNat
      · rw [isSelectedLoop, if_neg hneg, if_pos htb]
        simp only [true_iff]
        exact ⟨idx, List.mem_cons_self idx rest, Int.not_lt.mp hneg, htb⟩
      · rw [isSelectedLoop, if_neg hneg, if_neg htb, ih (pos + 1) counts fills]
        constructor
        · rintro ⟨x, hx, h0, htb'⟩
          exact ⟨x, List.mem_cons_of_mem idx hx, h0, htb'⟩
        · rintro ⟨x, hx, h0, htb'⟩
          rcases List.mem_cons.mp hx with rfl | hx'
          · exact absurd htb' htb
          · exact ⟨x, hx', h0, htb'⟩

theorem isSelectedLoop_first_hit (mask : Nat) (ch hT : Bool) :
    ∀ (idxs : List Int) (pos : Nat) (counts fills : List Nat) (j : Nat)
      (hj : j < idxs.length),
      (0 ≤ idxs.get ⟨j, hj⟩ ∧ mask.testBit (idxs.get ⟨j, hj⟩).toNat) →
      (∀ p (hp : p < j), ¬(0 ≤ idxs.get ⟨p, Nat.lt_trans hp hj⟩ ∧
        mask.testBit (idxs.get ⟨p, Nat.lt_trans hp hj⟩).toNat)) →
      (isSelectedLoop mask ch hT idxs pos counts fills).2.1 =
        bumpCount counts (pos + j) ch := by
  intro idxs
  induction idxs with
  | nil => intro pos counts fills j hj; exact absurd hj (by simp)
  | cons idx rest ih =>
    intro pos counts fills j hj hhit hmiss
    cases j with
    | zero =>
      simp only [List.get] at hhit
      have hneg : ¬ idx < 0 := Int.not_lt.mpr hhit.1
      rw [isSelectedLoop, if_neg hneg, if_pos hhit.2]
      simp
    | succ m =>
      have hmj : m < rest.length := by simpa using Nat.lt_of_succ_lt_succ hj
      have hmiss0 := hmiss 0 (Nat.succ_pos m)
      simp only [List.get] at hmiss0 hhit
      have hrec : (isSelectedLoop mask ch hT rest (pos + 1) counts fills).2.1 =
          bumpCount counts (pos + 1 + m) ch := by
        refine ih (pos + 1) counts fills m hmj hhit (fun p hp => ?_)
        have := hmiss (p + 1) (Nat.succ_lt_succ hp)
        simpa using this
      have harith : pos + 1 + m = pos + (m + 1) := by omega
      rw [harith] at hrec
      by_cases hneg : idx < 0
      · rw [isSelectedLoop, if_pos hneg]
        exact hrec
      · by_cases htb : mask.testBit idx.toNat
        · exact absurd ⟨Int.not_lt.mp hneg, htb⟩ hmiss0
        · rw [isSelectedLoop, if_neg hneg, if_neg htb]
          exact hrec

/-! ### Unfolding lemmas for isSelected -/

theorem isSelected_fst (s : ZorroState) (bc tol : Nat) :
    (isSelected s bc tol).1 =
      (isSelectedLoop (fetch s bc tol).1
        (s.mLastSelectedIdx != (fetch s bc tol).2.mLastSelectedIdx)
        (fetch s bc tol).2.hasAnalysedTOI (fetch s bc tol).2.mTOIidx 0
        (fetch s bc tol).2.mTOIcounts (fetch s bc tol).2.analysedTOIFills).1 := rfl

theorem isSelected_counts (s : ZorroState) (bc tol : Nat) :
    (isSelected s bc tol).2.mTOIcounts =
      (isSelectedLoop (fetch s bc tol).1
        (s.mLastSelectedIdx != (fetch s bc tol).2.mLastSelectedIdx)
        (fetch s bc tol).2.hasAnalysedTOI (fetch s bc tol).2.mTOIidx 0
        (fetch s bc tol).2.mTOIcounts (fetch s bc tol).2.analysedTOIFills).2.1 := rfl

theorem isSelected_state_frame (s : ZorroState) (bc tol : Nat) :
    (isSelected s bc tol).2.mZorroHelpers = (fetch s bc tol).2.mZorroHelpers ∧
    (isSelected s bc tol).2.mLastBCglobalId = (fetch s bc tol).2.mLastBCglobalId ∧
    (isSelected s bc tol).2.mLastSelectedIdx = (fetch s bc tol).2.mLastSelectedIdx ∧
    (isSelected s bc tol).2.mTOIidx = (fetch s bc tol).2.mTOIidx :=
  ⟨rfl, rfl, rfl, rfl⟩

/-! ### Properties of findBin and of the trigger-index construction -/

theorem findBinAux_of_not_mem (label : String) :
    ∀ (labels : List String) (k : Int), label ∉ labels → findBinAux label labels k = -1 := by
  intro labels
  induction labels with
  | nil => intro k _; rfl
  | cons l rest ih =>
    intro k hmem
    have h1 : ¬((label == l) = true) := by
      simp only [beq_iff_eq]
      intro h
      exact hmem (h ▸ List.mem_cons_self l rest)
    rw [findBinAux, if_neg h1]
    exact ih (k + 1) (fun h => hmem (List.mem_cons_of_mem l h))

theorem findBin_eq_neg_one_of_not_mem (labels : List String) (label : String)
    (h : label ∉ labels) : findBin labels label = -1 :=
  findBinAux_of_not_mem label labels 1 h

theorem getD_map_findBin (labels : List String) :
    ∀ (l : List String) (i : Nat), i < l.length →
      (l.map (fun t => findBin labels t - 2)).getD i 0 =
        findBin labels (l.getD i "") - 2 := by
  intro l
  induction l with
  | nil => intro i hi; exact absurd hi (by simp)
  | cons a l ih =>
    intro i hi
    cases i with
    | zero => rfl
    | succ n => simpa using ih n (by simpa using hi)

/-! ### The reference scenario of the spec -/

/-- Record table of the spec's reference scenario: interval `[100,110]` with
mask `0b01` and interval `[200,210]` with mask `0b10`. -/
def scenarioHelpers : List ZorroHelper := [⟨100, 110, 1, 0⟩, ⟨200, 210, 2, 0⟩]

/-- Selection-counter bin labels for the scenario: the first and last bins
are the bookkeeping totals, bins 2 and 3 carry triggers `A` (bit 0) and `B`
(bit 1). -/
def scenarioLabels : List String := ["AnalysedTotal", "A", "B", "SelectedTotal"]

/-- The scenario state right after initialization for run 1 with triggers of
interest `"A,B"`. -/
def scenarioInit : ZorroState :=
  (initCCDB emptyZorro 1 scenarioHelpers scenarioLabels "A,B" 0).2

/-- The scenario state with the analysed-triggers histogram collaborator
attached. -/
def scenarioInitHist : ZorroState := { scenarioInit with hasAnalysedTriggers := true }

/-! ### Claim theorems -/

/-- C10: calling `initCCDB` with the currently loaded run number is a
complete no-op apart from returning the previously computed `mTOIidx`: the
returned state is the input state itself, so record table, cursor, counts,
tolerance and trigger list are untouched even when the trigger string or
tolerance argument differ from the earlier call. -/
theorem c10_same_run_noop (s : ZorroState) (run : Int) (helpersRaw : List ZorroHelper)
    (labels : List String) (tois : String) (bcRange : Nat) (h : s.mRunNumber = run) :
    initCCDB s run helpersRaw labels tois bcRange = (s.mTOIidx, s) := by
  rw [initCCDB, if_pos h]

/-- Witness for C10 at a concrete input (the fresh state, its sentinel run
number, and arguments that differ from anything seen before). -/
theorem c10_same_run_noop_witness :
    initCCDB emptyZorro (-1) [⟨1, 2, 3, 4⟩] ["X"] "X" 7 = ([], emptyZorro) :=
  c10_same_run_noop emptyZorro (-1) [⟨1, 2, 3, 4⟩] ["X"] "X" 7 rfl

/-- C7: after an actual (re-)initialization the record table is sorted
ascending by each record's minimum endpoint: every pair of adjacent records
satisfies `min(bcAOD, bcEvSel)` of the first `≤` that of the second. -/
theorem c7_sorted_after_init (s : ZorroState) (run : Int) (helpersRaw : List ZorroHelper)
    (labels : List String) (tois : String) (bcRange : Nat) (hrun : s.mRunNumber ≠ run)
    (i : Nat)
    (hi : i + 1 < (initCCDB s run helpersRaw labels tois bcRange).2.mZorroHelpers.length) :
    hmin ((initCCDB s run helpersRaw labels tois bcRange).2.mZorroHelpers.getD i default) ≤
      hmin ((initCCDB s run helpersRaw labels tois bcRange).2.mZorroHelpers.getD
        (i + 1) default) := by
  have htbl : (initCCDB s run helpersRaw labels tois bcRange).2.mZorroHelpers =
      List.insertionSort minLE helpersRaw := by
    rw [initCCDB, if_neg (fun hc => hrun hc)]
  rw [htbl] at hi ⊢
  have hlt : i < (List.insertionSort minLE helpersRaw).length := Nat.lt_of_succ_lt hi
  have hsorted : List.Sorted minLE (List.insertionSort minLE helpersRaw) :=
    List.sorted_insertionSort minLE helpersRaw
  have hrel : minLE ((List.insertionSort minLE helpersRaw).get ⟨i, hlt⟩)
      ((List.insertionSort minLE helpersRaw).get ⟨i + 1, hi⟩) :=
    List.Sorted.rel_get_of_lt hsorted (by simp [Fin.lt_def])
  rw [List.getD_eq_getElem _ _ hlt, List.getD_eq_getElem _ _ hi]
  simpa [minLE, List.get_eq_getElem] using hrel

/-- Witness for C7: initializing with an unsorted two-record table. -/
theorem c7_sorted_after_init_witness :
    hmin ((initCCDB emptyZorro 1 [⟨200, 210, 0, 0⟩, ⟨100, 110, 0, 0⟩] [] "" 0).2.mZorroHelpers.getD
        0 default) ≤
      hmin ((initCCDB emptyZorro 1 [⟨200, 210, 0, 0⟩, ⟨100, 110, 0, 0⟩] [] "" 0).2.mZorroHelpers.getD
        1 default) :=
  c7_sorted_after_init emptyZorro 1 [⟨200, 210, 0, 0⟩, ⟨100, 110, 0, 0⟩] [] "" 0
    (by decide) 0 (by decide)

/-- C2 (amended): re-initialization with a different run number rebuilds the
record table and resets the cursor state (`mLastBCglobalId = 0`,
`mLastSelectedIdx = 0`), but the cumulative counts are only resized to the
new trigger count (`mTOIcounts.resize(n, 0)`): slots surviving the resize
keep their values from the previous run and only newly added slots are
zero — the counts are not cleared. -/
theorem c2_reinit_resizes_counts (s : ZorroState) (run : Int)
    (helpersRaw : List ZorroHelper) (labels : List String) (tois : String) (bcRange : Nat)
    (hrun : s.mRunNumber ≠ run) :
    (initCCDB s run helpersRaw labels tois bcRange).2.mLastBCglobalId = 0 ∧
    (initCCDB s run helpersRaw labels tois bcRange).2.mLastSelectedIdx = 0 ∧
    (initCCDB s run helpersRaw labels tois bcRange).2.mZorroHelpers =
      List.insertionSort minLE helpersRaw ∧
    (initCCDB s run helpersRaw labels tois bcRange).2.mTOIcounts =
      s.mTOIcounts.take (parseTOIs tois).length ++
        List.replicate ((parseTOIs tois).length - s.mTOIcounts.length) 0 := by
  rw [initCCDB, if_neg (fun hc => hrun hc)]
  exact ⟨rfl, rfl, rfl, rfl⟩

/-- Witness for C2's amended statement at a concrete input. -/
theorem c2_reinit_resizes_counts_witness :
    (initCCDB emptyZorro 1 scenarioHelpers scenarioLabels "A,B" 0).2.mLastBCglobalId = 0 ∧
    (initCCDB emptyZorro 1 scenarioHelpers scenarioLabels "A,B" 0).2.mLastSelectedIdx = 0 ∧
    (initCCDB emptyZorro 1 scenarioHelpers scenarioLabels "A,B" 0).2.mZorroHelpers =
      List.insertionSort minLE scenarioHelpers ∧
    (initCCDB emptyZorro 1 scenarioHelpers scenarioLabels "A,B" 0).2.mTOIcounts =
      emptyZorro.mTOIcounts.take (parseTOIs "A,B").length ++
        List.replicate ((parseTOIs "A,B").length - emptyZorro.mTOIcounts.length) 0 :=
  c2_reinit_resizes_counts emptyZorro 1 scenarioHelpers scenarioLabels "A,B" 0 (by decide)

/-- C2 counterexample: run 1 is initialized with triggers `A,B`; the query at
key 205 selects trigger `B` once, so the counts are `[0, 1]`.
Re-initializing for run 2 with the same trigger list resizes the count
vector to the same length, so the counts remain `[0, 1]` instead of being
cleared to `[0, 0]` — the claim's "every trigger's cumulative count is zero"
fails. -/
theorem c2_counterexample :
    (initCCDB (isSelected scenarioInit 205 0).2 2 scenarioHelpers scenarioLabels
        "A,B" 0).2.mTOIcounts = [0, 1] ∧
    (initCCDB (isSelected scenarioInit 205 0).2 2 scenarioHelpers scenarioLabels
        "A,B" 0).2.mTOIcounts ≠ List.replicate 2 0 := by
  constructor
  · decide
  · decide

/-- C3 (amended): a trigger name with no exact match among the selection
labels is stored with sentinel `-3` — `findBin`'s not-found value `-1` minus
the 2-bin label offset — not `-1`; and any negative stored entry is silently
skipped by the query loop (the loop step on a negative index is the same as
if the entry were absent, except for the running position). -/
theorem c3_unresolved_sentinel (s : ZorroState) (run : Int)
    (helpersRaw : List ZorroHelper) (labels : List String) (tois : String) (bcRange : Nat)
    (hrun : s.mRunNumber ≠ run) :
    (∀ i, i < (parseTOIs tois).length → (parseTOIs tois).getD i "" ∉ labels →
      (initCCDB s run helpersRaw labels tois bcRange).2.mTOIidx.getD i 0 = -3) ∧
    (∀ (mask : Nat) (ch hT : Bool) (idx : Int) (rest : List Int) (pos : Nat)
      (counts fills : List Nat), idx < 0 →
      isSelectedLoop mask ch hT (idx :: rest) pos counts fills =
        isSelectedLoop mask ch hT rest (pos + 1) counts fills) := by
  constructor
  · intro i hi hmem
    have htbl : (initCCDB s run helpersRaw labels tois bcRange).2.mTOIidx =
        (parseTOIs tois).map (fun t => findBin labels t - 2) := by
      rw [initCCDB, if_neg (fun hc => hrun hc)]
    rw [htbl, getD_map_findBin labels (parseTOIs tois) i hi,
      findBin_eq_neg_one_of_not_mem labels _ hmem]
    decide
  · intro mask ch hT idx rest pos counts fills hidx
    rw [isSelectedLoop, if_pos hidx]

/-- Witness for C3's amended statement: trigger `"X"` does not appear among
the labels, so its stored index is `-3`. -/
theorem c3_unresolved_sentinel_witness :
    (initCCDB emptyZorro 1 [] ["T"] "X" 0).2.mTOIidx.getD 0 0 = -3 :=
  (c3_unresolved_sentinel emptyZorro 1 [] ["T"] "X" 0 (by decide)).1 0 (by decide) (by decide)

/-- C3 counterexample: with labels `["T"]` and trigger string `"X"` the whole
stored index table is `[-3]`, not `[-1]` as the claim's sentinel says. -/
theorem c3_counterexample :
    (initCCDB emptyZorro 1 [] ["T"] "X" 0).2.mTOIidx = [-3] ∧
    (initCCDB emptyZorro 1 [] ["T"] "X" 0).2.mTOIidx ≠ [-1] := by
  constructor
  · decide
  · decide

/-- C1 (code behavior at the spec's reference scenario): from the freshly
initialized index, the very first `isSelected(105, 0)` returns `true`, but
trigger A's cumulative count stays 0 instead of becoming 1: the match lands
on record index 0, which equals the freshly reset cursor, so the
`lastSelectedIdx != mLastSelectedIdx` duplicate-suppression guard also
suppresses the genuinely first count. -/
theorem c1_first_query_count_suppressed :
    (isSelected scenarioInit 105 0).1 = true ∧
    (isSelected scenarioInit 105 0).2.mTOIcounts = [0, 0] := by
  constructor
  · decide
  · decide

/-- C4 counterexample: with the histogram collaborator attached, query key 50
first (no match: the previous result mask becomes all-zero and the cursor
stays 0), then key 105 (matches record 0, whose bit 0 is set — a bit that
was OFF in the previous result).  The matched index 0 equals the previous
matched index 0, and no "trigger fired" report is emitted: the fill list
stays empty, contradicting the claim's "reported even when the matched
record index is unchanged". -/
theorem c4_counterexample :
    scenarioInitHist.hasAnalysedTriggers = true ∧
    (fetch scenarioInitHist 50 0).2.mLastResult = 0 ∧
    (fetch scenarioInitHist 50 0).2.mLastSelectedIdx = scenarioInitHist.mLastSelectedIdx ∧
    (fetch (fetch scenarioInitHist 50 0).2 105 0).1.testBit 0 = true ∧
    (fetch (fetch scenarioInitHist 50 0).2 105 0).2.mLastSelectedIdx =
      (fetch scenarioInitHist 50 0).2.mLastSelectedIdx ∧
    (fetch (fetch scenarioInitHist 50 0).2 105 0).2.analysedTriggersFills = [] := by
  refine ⟨?_, ?_, ?_, ?_, ?_, ?_⟩ <;> decide

/-- C4 (amended): on a fetch that matches record `i`, the "trigger fired"
reports (one per set bit of the matched mask, in ascending bit order) are
appended exactly when the histogram collaborator is attached and the matched
record index differs from the cursor captured at call entry; the previous
result mask plays no role in the condition. -/
theorem c4_fill_condition (s : ZorroState) (bc tol i c : Nat)
    (h : scan s.mZorroHelpers (fetchLo bc tol) (fetchHi bc tol)
      (startIdx s bc) (startIdx s bc) = (some i, c)) :
    (fetch s bc tol).2.analysedTriggersFills =
      s.analysedTriggersFills ++
        (if s.hasAnalysedTriggers ∧ i ≠ s.mLastSelectedIdx
          then setBits ((fetch s bc tol).1) else []) := by
  rw [fetch_of_scan_some h]

/-- Witness for C4's amended statement: query 205 from the scenario matches
record 1 while the cursor is 0, so one report per set bit is appended. -/
theorem c4_fill_condition_witness :
    (fetch scenarioInitHist 205 0).2.analysedTriggersFills =
      scenarioInitHist.analysedTriggersFills ++
        (if scenarioInitHist.hasAnalysedTriggers ∧ 1 ≠ scenarioInitHist.mLastSelectedIdx
          then setBits ((fetch scenarioInitHist 205 0).1) else []) :=
  c4_fill_condition scenarioInitHist 205 0 1 1 (by decide)

/-- C8: a query whose tolerance window overlaps no record at or after the
effective start index — in particular when the record table is empty, or
when the window lies strictly beyond every record — makes `fetch` return the
all-zero mask and `isSelected` return `false`; both are the ordinary return
path, there is no separate error outcome. -/
theorem c8_no_overlap_no_match (s : ZorroState) (bc tol : Nat)
    (hout : ∀ j r, startIdx s bc ≤ j → s.mZorroHelpers[j]? = some r →
      isOutside r (fetchLo bc tol) (fetchHi bc tol) = true) :
    (fetch s bc tol).1 = 0 ∧ (isSelected s bc tol).1 = false := by
  have h1 : (scan s.mZorroHelpers (fetchLo bc tol) (fetchHi bc tol)
      (startIdx s bc) (startIdx s bc)).1 = none :=
    scan_none_of_all_outside s.mZorroHelpers (fetchLo bc tol) (fetchHi bc tol)
      (s.mZorroHelpers.length - startIdx s bc) (startIdx s bc) (startIdx s bc) rfl hout
  rcases hres : scan s.mZorroHelpers (fetchLo bc tol) (fetchHi bc tol)
    (startIdx s bc) (startIdx s bc) with ⟨o, c⟩
  rw [hres] at h1
  obtain rfl : o = none := h1
  have hm : (fetch s bc tol).1 = 0 := by rw [fetch_of_scan_none hres]
  refine ⟨hm, ?_⟩
  rw [isSelected_fst, hm]
  exact isSelectedLoop_fst_of_zero _ _ _ _ _ _

/-- Witness for C8: the empty record table (fresh state), any query. -/
theorem c8_no_overlap_no_match_witness :
    (fetch emptyZorro 7 3).1 = 0 ∧ (isSelected emptyZorro 7 3).1 = false :=
  c8_no_overlap_no_match emptyZorro 7 3 (by intro j r _ hj; simp [emptyZorro] at hj)

/-- C9: `isSelected` returns `true` iff some resolved (non-negative) entry of
`mTOIidx` has its bit set in the mask fetched for this query; and when the
first such entry sits at position `j`, the count update touches exactly
position `j` — the loop returns at the first hit without examining later
triggers. -/
theorem c9_first_hit (s : ZorroState) (bc tol : Nat) :
    ((isSelected s bc tol).1 = true ↔
      ∃ idx ∈ s.mTOIidx, 0 ≤ idx ∧ ((fetch s bc tol).1).testBit idx.toNat) ∧
    (∀ j (hj : j < s.mTOIidx.length),
      (0 ≤ s.mTOIidx.get ⟨j, hj⟩ ∧
        ((fetch s bc tol).1).testBit (s.mTOIidx.get ⟨j, hj⟩).toNat) →
      (∀ p (hp : p < j), ¬(0 ≤ s.mTOIidx.get ⟨p, Nat.lt_trans hp hj⟩ ∧
        ((fetch s bc tol).1).testBit (s.mTOIidx.get ⟨p, Nat.lt_trans hp hj⟩).toNat)) →
      (isSelected s bc tol).2.mTOIcounts =
        bumpCount s.mTOIcounts j
          (s.mLastSelectedIdx != (fetch s bc tol).2.mLastSelectedIdx)) := by
  obtain ⟨hH, hidx, hcounts, hTOI, hfills, hB⟩ := fetch_frame s bc tol
  constructor
  · rw [isSelected_fst, hidx]
    exact isSelectedLoop_true_iff ((fetch s bc tol).1) _ _ s.mTOIidx 0
      ((fetch s bc tol).2.mTOIcounts) ((fetch s bc tol).2.analysedTOIFills)
  · intro j hj hhit hmiss
    rw [isSelected_counts, hidx, hcounts]
    have := isSelectedLoop_first_hit ((fetch s bc tol).1)
      (s.mLastSelectedIdx != (fetch s bc tol).2.mLastSelectedIdx)
      ((fetch s bc tol).2.hasAnalysedTOI) s.mTOIidx 0 s.mTOIcounts
      ((fetch s bc tol).2.analysedTOIFills) j hj hhit hmiss
    simpa using this

/-- Witness for C9: the scenario query at 105 hits trigger A at position 0. -/
theorem c9_first_hit_witness :
    (isSelected scenarioInit 105 0).2.mTOIcounts =
      bumpCount scenarioInit.mTOIcounts 0
        (scenarioInit.mLastSelectedIdx != (fetch scenarioInit 105 0).2.mLastSelectedIdx) :=
  (c9_first_hit scenarioInit 105 0).2 0 (by decide) (by decide)
    (fun p hp => absurd hp (Nat.not_lt_zero p))

/-- C5: a repeated query is idempotent and non-advancing: calling `fetch`
twice in a row with the same key and tolerance returns the same mask both
times, and a second `isSelected` with the same arguments leaves every
trigger's cumulative count unchanged (duplicate suppression). -/
theorem c5_repeat_idempotent (s : ZorroState) (K tol : Nat) :
    (fetch (fetch s K tol).2 K tol).1 = (fetch s K tol).1 ∧
    (isSelected (isSelected s K tol).2 K tol).2.mTOIcounts =
      (isSelected s K tol).2.mTOIcounts := by
  obtain ⟨hH, hidx, hcounts, hTOI, hfills, hB⟩ := fetch_frame s K tol
  constructor
  · exact (fetch_stable s ((fetch s K tol).2) K tol hH hB rfl).1
  · obtain ⟨itH, itB, itC, itI⟩ := isSelected_state_frame s K tol
    have ht1H : (isSelected s K tol).2.mZorroHelpers = s.mZorroHelpers := by rw [itH, hH]
    have ht1B : (isSelected s K tol).2.mLastBCglobalId = K := by rw [itB, hB]
    have hstab := fetch_stable s ((isSelected s K tol).2) K tol ht1H ht1B itC
    have hch : ((isSelected s K tol).2.mLastSelectedIdx !=
        (fetch (isSelected s K tol).2 K tol).2.mLastSelectedIdx) = false := by
      rw [hstab.2]
      simp
    obtain ⟨-, -, hcounts2, -, -, -⟩ := fetch_frame ((isSelected s K tol).2) K tol
    rw [isSelected_counts ((isSelected s K tol).2) K tol, hch,
      isSelectedLoop_counts_false]
    exact hcounts2

/-- C6: rewind correctness: starting from the freshly initialized cursor,
querying key `K`, then a smaller key `K' < K` (which resets the cursor to 0
before searching), then `K` again returns the same mask for both queries at
`K`. -/
theorem c6_rewind (s : ZorroState) (K K' tol : Nat) (h0 : s.mLastSelectedIdx = 0)
    (hKK : K' < K) :
    (fetch (fetch (fetch s K tol).2 K' tol).2 K tol).1 = (fetch s K tol).1 := by
  obtain ⟨h1H, -, -, -, -, h1B⟩ := fetch_frame s K tol
  obtain ⟨h2H, -, -, -, -, h2B⟩ := fetch_frame ((fetch s K tol).2) K' tol
  have hstart1 : startIdx s K = 0 := by
    rw [startIdx, h0]
    exact ite_self 0
  have hstart2 : startIdx ((fetch s K tol).2) K' = 0 := by
    rw [startIdx, h1B, if_pos hKK]
  have hstart3 : startIdx ((fetch (fetch s K tol).2 K' tol).2) K =
      (fetch (fetch s K tol).2 K' tol).2.mLastSelectedIdx := by
    rw [startIdx, h2B, if_neg (Nat.not_lt.mpr (Nat.le_of_lt hKK))]
  have hc2 : (fetch (fetch s K tol).2 K' tol).2.mLastSelectedIdx =
      (scan s.mZorroHelpers (fetchLo K' tol) (fetchHi K' tol) 0 0).2 := by
    rw [fetch_cursor, hstart2, h1H]
  rw [fetch_mask ((fetch (fetch s K tol).2 K' tol).2) K tol, fetch_mask s K tol,
    hstart1, hstart3, h2H, h1H, hc2]
  have hlo : fetchLo K' tol < fetchLo K tol := by
    unfold fetchLo
    omega
  suffices hsc : (scan s.mZorroHelpers (fetchLo K tol) (fetchHi K tol)
      ((scan s.mZorroHelpers (fetchLo K' tol) (fetchHi K' tol) 0 0).2)
      ((scan s.mZorroHelpers (fetchLo K' tol) (fetchHi K' tol) 0 0).2)).1 =
      (scan s.mZorroHelpers (fetchLo K tol) (fetchHi K tol) 0 0).1 by
    exact congrArg (maskOf s.mZorroHelpers) hsc
  rcases hres2 : scan s.mZorroHelpers (fetchLo K' tol) (fetchHi K' tol) 0 0 with ⟨o2, c2⟩
  show (scan s.mZorroHelpers (fetchLo K tol) (fetchHi K tol) c2 c2).1 =
    (scan s.mZorroHelpers (fetchLo K tol) (fetchHi K tol) 0 0).1
  cases o2 with
  | some j =>
    obtain ⟨rfl, -, -, hskip'⟩ := scan_char_some hres2
    have hskip : ∀ p, p < c2 → skippable s.mZorroHelpers (fetchLo K tol) p := by
      intro p hpj
      obtain ⟨r, hr, hmx⟩ := hskip' p (Nat.zero_le p) hpj
      exact ⟨r, hr, lt_trans hmx hlo⟩
    rcases Nat.eq_zero_or_pos c2 with rfl | hj
    · rfl
    · rw [scan_skip_run s.mZorroHelpers (fetchLo K tol) (fetchHi K tol) c2 0 0 hj
        (fun p hp hpj => hskip p hpj)]
      exact scan_fst_cur s.mZorroHelpers (fetchLo K tol) (fetchHi K tol) c2 c2 (c2 - 1)
  | none =>
    rcases scan_char_none hres2 with rfl | ⟨h0c, hskip'⟩
    · rfl
    · have hskip : ∀ p, p ≤ c2 → skippable s.mZorroHelpers (fetchLo K tol) p := by
        intro p hpc
        obtain ⟨r, hr, hmx⟩ := hskip' p (Nat.zero_le p) hpc
        exact ⟨r, hr, lt_trans hmx hlo⟩
      obtain ⟨r, hr, hmx⟩ := hskip c2 (Nat.le_refl c2)
      have h1 : scan s.mZorroHelpers (fetchLo K tol) (fetchHi K tol) 0 0 =
          scan s.mZorroHelpers (fetchLo K tol) (fetchHi K tol) (c2 + 1) c2 := by
        have := scan_skip_run s.mZorroHelpers (fetchLo K tol) (fetchHi K tol)
          (c2 + 1) 0 0 (Nat.succ_pos c2) (fun p hp hpc => hskip p (by omega))
        simpa using this
      have h2 : scan s.mZorroHelpers (fetchLo K tol) (fetchHi K tol) c2 c2 =
          scan s.mZorroHelpers (fetchLo K tol) (fetchHi K tol) (c2 + 1) c2 :=
        scan_skip hr hmx
      rw [h1, h2]

/-- Witness for C6: the scenario queries 205, 105, 205. -/
theorem c6_rewind_witness :
    (fetch (fetch (fetch scenarioInit 205 0).2 105 0).2 205 0).1 =
      (fetch scenarioInit 205 0).1 :=
  c6_rewind scenarioInit 205 105 0 (by decide) (by decide)

end Zorro
